import Mathlib

/-!
Shallow embedding of `cite_arxiv_article.py` (repository `adebray/LaTeX_utilities`).

Python strings are modelled as `List Char` (called `Str` below); the Python
string primitives used by the script (`count`, `rfind`, slicing, `replace`,
`split`, `' and '.join`, substring test `in`) are embedded as structurally
recursive Lean functions with Python's semantics.  The XML trees produced by
`xml.etree.ElementTree` are modelled by the inductive `XElem` (tag, attributes,
optional text, children), with `find`/`findall`/`get` embedded as `xfind`,
`xfindall`, `xget`.  Uncaught Python exceptions are modelled by the `PyError`
error type of an `Except` result: `attributeError` corresponds to calling a
method on `None`, `typeErr` to subscripting/joining `None`, and
`valueError n` to the explicit `raise ValueError` carrying the link count `n`.
-/

set_option maxRecDepth 8192

/-- Python strings, modelled as lists of characters. -/
abbrev Str := List Char

/-- Boolean test that `p` is a prefix of `s` (structural, kernel-computable). -/
def listPrefixB : Str → Str → Bool
  | [], _ => true
  | _ :: _, [] => false
  | p :: ps, c :: cs => (p == c) && listPrefixB ps cs

/-- Python's substring test `pat in s`: `pat` occurs contiguously in `s`. -/
def containsSub : Str → Str → Bool
  | [], pat => pat == []
  | c :: rest, pat => listPrefixB pat (c :: rest) || containsSub rest pat

/-- Python's `s.count(c)` for a single character `c`. -/
def countChar : Str → Char → Nat
  | [], _ => 0
  | x :: xs, c => (if x = c then 1 else 0) + countChar xs c

/-- Helper for `pyRfind`: index of the last occurrence of `c`, if any. -/
def rfindAux (c : Char) : Str → Option Nat
  | [] => none
  | x :: xs =>
    match rfindAux c xs with
    | some i => some (i + 1)
    | none => if x = c then some 0 else none

/-- Python's `s.rfind(c)`: highest index of `c` in `s`, `-1` if absent. -/
def pyRfind (s : Str) (c : Char) : Int :=
  match rfindAux c s with
  | some i => (i : Int)
  | none => -1

/-- Python's slice `s[:i]`, including the negative-index convention. -/
def pySliceUpto (s : Str) (i : Int) : Str :=
  if i < 0 then s.take (s.length - (-i).toNat) else s.take i.toNat

/-- Python's slice `s[-n:]`: the last `n` characters (the whole string if shorter). -/
def pyTakeLast (s : Str) (n : Nat) : Str := s.drop (s.length - n)

/-- Fuel-driven body of Python's `s.replace(pat, rep)`: replaces every
non-overlapping occurrence of `pat`, scanning left to right.  The fuel is the
length of the remaining string, so it never runs out on the initial call. -/
def pyReplaceFuel (pat rep : Str) : Nat → Str → Str
  | _, [] => []
  | 0, c :: rest => c :: rest
  | n + 1, c :: rest =>
    if listPrefixB pat (c :: rest) && !(pat == []) then
      rep ++ pyReplaceFuel pat rep n ((c :: rest).drop pat.length)
    else
      c :: pyReplaceFuel pat rep n rest

/-- Python's `s.replace(pat, rep)` (all occurrences, left to right). -/
def pyReplace (s pat rep : Str) : Str := pyReplaceFuel pat rep s.length s

/-- Fuel-driven body of Python's `s.split(sep)` for a non-empty separator. -/
def pySplitFuel (sep : Str) : Nat → Str → List Str
  | _, [] => [[]]
  | 0, c :: rest => [c :: rest]
  | n + 1, c :: rest =>
    if listPrefixB sep (c :: rest) && !(sep == []) then
      [] :: pySplitFuel sep n ((c :: rest).drop sep.length)
    else
      match pySplitFuel sep n rest with
      | [] => [[c]]
      | p :: ps => (c :: p) :: ps

/-- Python's `s.split(sep)` for a non-empty separator `sep`. -/
def pySplitOn (s sep : Str) : List Str := pySplitFuel sep s.length s

/-- Helper for Python's whitespace `s.split()`: `acc` holds the reversed
current token; tokens are emitted only when non-empty. -/
def wsTokensAux : Str → Str → List Str
  | [], acc => if acc == [] then [] else [acc.reverse]
  | c :: rest, acc =>
    if c.isWhitespace then
      if acc == [] then wsTokensAux rest [] else acc.reverse :: wsTokensAux rest []
    else
      wsTokensAux rest (c :: acc)

/-- Python's no-argument `s.split()`: maximal runs of non-whitespace characters. -/
def wsTokens (s : Str) : List Str := wsTokensAux s []

/-- Python's `sep.join(parts)`. -/
def joinSep (sep : Str) : List Str → Str
  | [] => []
  | [x] => x
  | x :: xs => x ++ sep ++ joinSep sep xs

/-- Python's `lst[-1]` as an `Option` (`none` models the `IndexError` on `[]`). -/
def pyLastOpt {α : Type} : List α → Option α
  | [] => none
  | [x] => some x
  | _ :: x :: xs => pyLastOpt (x :: xs)

/-- Effectful map over a list in the `Option` monad, evaluated left to right. -/
def optionMapList {α β : Type} (f : α → Option β) : List α → Option (List β)
  | [] => some []
  | x :: xs =>
    match f x with
    | none => none
    | some y => (optionMapList f xs).map (fun ys => y :: ys)

/-- Effectful map over a list in the `Except` monad, evaluated left to right;
models Python's lazy `map` being consumed by `join` (first error wins). -/
def exceptMapList {ε α β : Type} (f : α → Except ε β) : List α → Except ε (List β)
  | [] => Except.ok []
  | x :: xs =>
    match f x with
    | Except.error e => Except.error e
    | Except.ok y => (exceptMapList f xs).map (fun ys => y :: ys)

/-- The literal separator `' and '` used by `parse_response` and `make_tag`. -/
def andSep : Str := " and ".toList

/-- Embeds `fix_abstract_url` from `cite_arxiv_article.py`: if the string has
more than one `'v'`, truncate at the last `'v'`; then replace `http` by
`https` (Python `str.replace` rewrites every occurrence). -/
def fix_abstract_url (url : Str) : Str :=
  pyReplace
    (if countChar url 'v' > 1 then pySliceUpto url (pyRfind url 'v') else url)
    "http".toList "https".toList

/-- The record built by `parse_response` (the `CitationData` namedtuple).
`title` is an `Option` because `ElementTree` yields `None` as the text of an
empty `title` element and the script stores it unchecked. -/
structure CitationData where
  author : Str
  title : Option Str
  year : Str
  link : Str
deriving DecidableEq

/-- Uncaught Python exceptions of the script, as an error type. -/
inductive PyError where
  | attributeError : PyError
  | typeErr : PyError
  | valueError : Nat → PyError
deriving DecidableEq

/-- Embeds `make_tag` from `cite_arxiv_article.py`.  `none` models the
uncaught `IndexError` when an author name has no whitespace-delimited token. -/
def make_tag (cd : CitationData) : Option Str :=
  if containsSub cd.author andSep then
    (optionMapList
        (fun author => (pyLastOpt (wsTokens author)).bind
          (fun t => t.head?.map (fun c0 => [c0])))
        (pySplitOn cd.author andSep)).map
      (fun initials => initials.flatten ++ pyTakeLast cd.year 2)
  else
    (pyLastOpt (wsTokens cd.author)).map
      (fun surname => surname.take 3 ++ pyTakeLast cd.year 2)

/-- Python's `'%s' % x` for a possibly-`None` string variable (`None` prints
as the four characters `None`). -/
def pyStrOf : Option Str → Str
  | none => "None".toList
  | some s => s

/-- Embeds `format_citation_data` from `cite_arxiv_article.py`: the two
`%`-templates written out as concatenations, with `make_tag`'s possible
failure propagated. -/
def format_citation_data (cd : CitationData) (identifier : Str) (spire_style : Bool) :
    Option Str :=
  (make_tag cd).map (fun tag =>
    if spire_style then
      "@article\x7b".toList ++ tag ++ ",\n\tauthor = \x7b".toList ++ cd.author ++
        "\x7d,\n\tyear = \x7b".toList ++ cd.year ++ "\x7d,\n\ttitle = \x7b".toList ++
        pyStrOf cd.title ++ "\x7d,\n\teprint = \x7b".toList ++ identifier ++
        "\x7d,\n\tarchivePrefix = \"arXiv\"\n\x7d".toList
    else
      "@article\x7b".toList ++ tag ++ ",\n\tauthor = \x7b".toList ++ cd.author ++
        "\x7d,\n\ttitle = \x7b".toList ++ pyStrOf cd.title ++
        "\x7d,\n\tyear = \x7b".toList ++ cd.year ++ "\x7d,\n\tnote = \x7b\\url\x7b".toList ++
        cd.link ++ "\x7d\x7d\n\x7d".toList)

/-- XML element trees as produced by `xml.etree.ElementTree`: tag, attribute
list, optional text, child elements. -/
inductive XElem where
  | mk : Str → List (Str × Str) → Option Str → List XElem → XElem

/-- Tag of an element. -/
def XElem.tag : XElem → Str
  | .mk t _ _ _ => t

/-- Attribute list of an element. -/
def XElem.attrs : XElem → List (Str × Str)
  | .mk _ a _ _ => a

/-- Text of an element (`none` models `ElementTree`'s `None`). -/
def XElem.text : XElem → Option Str
  | .mk _ _ tx _ => tx

/-- Child elements of an element. -/
def XElem.children : XElem → List XElem
  | .mk _ _ _ cs => cs

/-- ElementTree's `e.find(t)`: first direct child with tag `t`. -/
def xfind (e : XElem) (t : Str) : Option XElem :=
  e.children.find? (fun c => c.tag == t)

/-- ElementTree's `e.findall(t)`: all direct children with tag `t`, in order. -/
def xfindall (e : XElem) (t : Str) : List XElem :=
  e.children.filter (fun c => c.tag == t)

/-- ElementTree's `e.get(k)`: value of attribute `k`, if present. -/
def xget (e : XElem) (k : Str) : Option Str :=
  (e.attrs.find? (fun p => p.fst == k)).map Prod.snd

/-- Embeds the author-extraction line of `parse_response`:
`map(lambda a: a.find('name').text, root.findall('author'))` as consumed by
`' and '.join`.  A missing `name` child is the `None.find` crash
(`attributeError`); a `name` with no text makes `join` see `None` (`typeErr`). -/
def authorNames (entry : XElem) : Except PyError (List Str) :=
  exceptMapList
    (fun a =>
      match xfind a "name".toList with
      | none => Except.error PyError.attributeError
      | some el =>
        match el.text with
        | none => Except.error PyError.typeErr
        | some t => Except.ok t)
    (xfindall entry "author".toList)

/-- Embeds the link-selection line of `parse_response`: the `link` children
whose `type` attribute equals `text/html`. -/
def htmlLinks (entry : XElem) : List XElem :=
  List.filter (fun x => xget x "type".toList == some "text/html".toList)
    (xfindall entry "link".toList)

/-- Embeds `parse_response` from `cite_arxiv_article.py`, starting from the
parsed element tree (the UTF-8 decode, namespace-stripping regex and XML
parse that precede it in the script are not needed by any claim).  Each
`Except.error` arm models the uncaught Python exception raised at the same
point in the source: `root` being `None` when no `entry` exists, a missing
`title`/`published` child, `None` text subscripted by `[:4]`, the explicit
`ValueError` carrying the html-link count, and a missing `href` attribute
passed into `fix_abstract_url` (where `None.count` crashes).  The arm for an
empty `article_links` after the count check is unreachable. -/
def parse_response (docRoot : XElem) : Except PyError CitationData :=
  match xfind docRoot "entry".toList with
  | none => Except.error PyError.attributeError
  | some root =>
    match authorNames root with
    | Except.error e => Except.error e
    | Except.ok names =>
      match xfind root "title".toList with
      | none => Except.error PyError.attributeError
      | some titleEl =>
        match xfind root "published".toList with
        | none => Except.error PyError.attributeError
        | some pubEl =>
          match pubEl.text with
          | none => Except.error PyError.typeErr
          | some pubText =>
            if (htmlLinks root).length != 1 then
              Except.error (PyError.valueError (htmlLinks root).length)
            else
              match htmlLinks root with
              | [] => Except.error PyError.typeErr
              | l :: _ =>
                match xget l "href".toList with
                | none => Except.error PyError.attributeError
                | some hrefv =>
                  Except.ok
                    ⟨joinSep andSep names, titleEl.text, pubText.take 4,
                      fix_abstract_url hrefv⟩

/-- An already-normalized abstract link: one `'v'`, scheme `https`. -/
def normalizedLink : Str := "https://arxiv.org/abs/1312.7188".toList

/-- A raw abstract link as returned by the arXiv API. -/
def rawLink : Str := "http://arxiv.org/abs/1312.7188v2".toList

/-- A link-like string with one `'v'` and no occurrence of `http`. -/
def plainLink : Str := "arxiv.org/abs/1312.7188".toList

/-- Single-author record: Edward Witten, 2016. -/
def wittenCd : CitationData := ⟨"Edward Witten".toList, none, "2016".toList, []⟩

/-- Two-author record with title and link: Moore and Witten, 1990. -/
def mooreWittenCd : CitationData :=
  ⟨"Gregory W. Moore and Edward Witten".toList, some "Sample Title".toList,
    "1990".toList, "https://arxiv.org/abs/sample".toList⟩

/-- Single author with a lowercase surname particle. -/
def vonNeumannCd : CitationData := ⟨"John von Neumann".toList, none, "1932".toList, []⟩

/-- Author list containing an author with a lowercase surname particle. -/
def multiVonCd : CitationData :=
  ⟨"Gregory W. Moore and John von Neumann".toList, none, "1990".toList, []⟩

/-- A single author whose name itself contains the separator `' and '`. -/
def smithCd : CitationData := ⟨"John Smith and Sons".toList, none, "2016".toList, []⟩

/-- The one-element author list whose only name contains `' and '`. -/
def c10names : List Str := ["John Smith and Sons".toList]

/-- Sample arXiv identifier. -/
def sampleIdentifier : Str := "1312.7188".toList

/-- Sample `title` element with text. -/
def titleEl0 : XElem := XElem.mk "title".toList [] (some "Sample Title".toList) []

/-- Sample `published` element with a timestamp text. -/
def pubEl0 : XElem :=
  XElem.mk "published".toList [] (some "2019-10-13T00:00:00Z".toList) []

/-- Sample html-typed `link` element with an `href`. -/
def linkEl0 : XElem :=
  XElem.mk "link".toList
    [("type".toList, "text/html".toList),
     ("href".toList, "http://arxiv.org/abs/1312.7188v2".toList)] none []

/-- Sample html-typed `link` element with no `href` attribute. -/
def htmlLinkBare : XElem :=
  XElem.mk "link".toList [("type".toList, "text/html".toList)] none []

/-- Sample `name` element for an author. -/
def nameEl0 : XElem := XElem.mk "name".toList [] (some "Edward Witten".toList) []

/-- Sample `author` element. -/
def authorEl0 : XElem := XElem.mk "author".toList [] none [nameEl0]

/-- Entry with zero `author` children but all other required pieces. -/
def entryNoAuthors : XElem := XElem.mk "entry".toList [] none [titleEl0, pubEl0, linkEl0]

/-- Response whose first entry has zero `author` children. -/
def feedNoAuthors : XElem := XElem.mk "feed".toList [] none [entryNoAuthors]

/-- Entry with two html-typed links (and everything else present). -/
def entryTwoLinks : XElem :=
  XElem.mk "entry".toList [] none [authorEl0, titleEl0, pubEl0, htmlLinkBare, htmlLinkBare]

/-- Response whose first entry has two html-typed links. -/
def feedTwoLinks : XElem := XElem.mk "feed".toList [] none [entryTwoLinks]

/-- Entry with two html-typed links and no `title` child. -/
def entryTwoLinksNoTitle : XElem :=
  XElem.mk "entry".toList [] none [htmlLinkBare, htmlLinkBare]

/-- Response whose first entry has two html-typed links and no `title`. -/
def feedTwoLinksNoTitle : XElem := XElem.mk "feed".toList [] none [entryTwoLinksNoTitle]

/-- A response with no `entry` element at all. -/
def feedNoEntry : XElem := XElem.mk "feed".toList [] none []

/-- The record `parse_response` builds from `feedNoAuthors`. -/
def noAuthorsRecord : CitationData :=
  ⟨[], some "Sample Title".toList, "2019".toList,
    "https://arxiv.org/abs/1312.7188".toList⟩

/-- Entry with no `title` child (published and link present). -/
def entryNoTitle : XElem := XElem.mk "entry".toList [] none [pubEl0, linkEl0]

/-- Response whose first entry has no `title` child. -/
def feedNoTitle : XElem := XElem.mk "feed".toList [] none [entryNoTitle]

/-- Entry with no `published` child (title and link present). -/
def entryNoPublished : XElem := XElem.mk "entry".toList [] none [titleEl0, linkEl0]

/-- Response whose first entry has no `published` child. -/
def feedNoPublished : XElem := XElem.mk "feed".toList [] none [entryNoPublished]

/-- A `published` element with no text. -/
def pubElNoText : XElem := XElem.mk "published".toList [] none []

/-- Entry whose `published` element has no text. -/
def entryPubNoText : XElem := XElem.mk "entry".toList [] none [titleEl0, pubElNoText, linkEl0]

/-- Response whose first entry's `published` element has no text. -/
def feedPubNoText : XElem := XElem.mk "feed".toList [] none [entryPubNoText]

/-- Entry with exactly one html-typed link that carries no `href`. -/
def entryOneBareLink : XElem :=
  XElem.mk "entry".toList [] none [titleEl0, pubEl0, htmlLinkBare]

/-- Response whose first entry's only html link lacks an `href`. -/
def feedOneBareLink : XElem := XElem.mk "feed".toList [] none [entryOneBareLink]

theorem listPrefixB_iff : ∀ (p s : Str), listPrefixB p s = true ↔ ∃ t, p ++ t = s
  | [], s => by simp [listPrefixB]
  | p :: ps, [] => by simp [listPrefixB]
  | p :: ps, c :: cs => by
    simp only [listPrefixB, Bool.and_eq_true, beq_iff_eq, listPrefixB_iff ps cs]
    constructor
    · rintro ⟨rfl, t, rfl⟩
      exact ⟨t, rfl⟩
    · rintro ⟨t, h⟩
      injection h with h1 h2
      exact ⟨h1, t, h2⟩

theorem listPrefixB_append_self (p t : Str) : listPrefixB p (p ++ t) = true :=
  (listPrefixB_iff p (p ++ t)).mpr ⟨t, rfl⟩

theorem containsSub_nil_pat : ∀ s : Str, containsSub s [] = true
  | [] => rfl
  | c :: rest => by simp [containsSub, listPrefixB]

theorem containsSub_middle : ∀ (a b c : Str), containsSub (a ++ (b ++ c)) b = true
  | [], b, c => by
    cases b with
    | nil => simpa using containsSub_nil_pat c
    | cons y ys =>
      simp only [containsSub, List.cons_append, Bool.or_eq_true]
      exact Or.inl (listPrefixB_append_self (y :: ys) c)
  | x :: a', b, c => by
    simp [containsSub, containsSub_middle a' b c]

theorem pyReplaceFuel_id (pat rep : Str) :
    ∀ (n : Nat) (s : Str), containsSub s pat = false → pyReplaceFuel pat rep n s = s
  | n, [] => fun _ => by cases n <;> rfl
  | 0, c :: rest => fun _ => rfl
  | n + 1, c :: rest => fun h => by
    rw [containsSub, Bool.or_eq_false_iff] at h
    simp [pyReplaceFuel, h.1, pyReplaceFuel_id pat rep n rest h.2]

theorem pyReplace_id (s pat rep : Str) (h : containsSub s pat = false) :
    pyReplace s pat rep = s :=
  pyReplaceFuel_id pat rep s.length s h

theorem countChar_append (c : Char) :
    ∀ (a b : Str), countChar (a ++ b) c = countChar a c + countChar b c
  | [], b => by simp [countChar]
  | x :: a', b => by
    have ih : countChar (List.append a' b) c = countChar a' c + countChar b c :=
      countChar_append c a' b
    simp only [List.cons_append, countChar]
    omega

theorem rfindAux_none (c : Char) : ∀ s : Str, rfindAux c s = none → countChar s c = 0
  | [] => fun _ => rfl
  | x :: xs => by
    intro h
    rw [show rfindAux c (x :: xs) = (match rfindAux c xs with
      | some i => some (i + 1)
      | none => if x = c then some 0 else none) from rfl] at h
    cases hr : rfindAux c xs with
    | some j =>
      rw [hr] at h
      exact absurd h (by simp)
    | none =>
      rw [hr] at h
      by_cases hx : x = c
      · rw [if_pos hx] at h
        exact absurd h (by simp)
      · have := rfindAux_none c xs hr
        simp [countChar, hx, this]

theorem rfindAux_count (c : Char) :
    ∀ (s : Str) (i : Nat), rfindAux c s = some i →
      countChar (s.take i) c + 1 = countChar s c
  | [], i => by simp [rfindAux]
  | x :: xs, i => by
    intro h
    rw [show rfindAux c (x :: xs) = (match rfindAux c xs with
      | some j => some (j + 1)
      | none => if x = c then some 0 else none) from rfl] at h
    cases hr : rfindAux c xs with
    | some j =>
      rw [hr] at h
      simp only [Option.some.injEq] at h
      subst h
      rw [List.take_succ_cons]
      have := rfindAux_count c xs j hr
      by_cases hx : x = c
      · simp only [countChar, if_pos hx]
        omega
      · simp only [countChar, if_neg hx]
        omega
    | none =>
      rw [hr] at h
      by_cases hx : x = c
      · rw [if_pos hx] at h
        simp only [Option.some.injEq] at h
        subst h
        have h0 := rfindAux_none c xs hr
        simp [countChar, hx, h0]
      · rw [if_neg hx] at h
        exact absurd h (by simp)

theorem rfindAux_of_count (c : Char) (s : Str) (h : 1 ≤ countChar s c) :
    ∃ i, rfindAux c s = some i := by
  cases hr : rfindAux c s with
  | none =>
    have := rfindAux_none c s hr
    omega
  | some i => exact ⟨i, rfl⟩

theorem countChar_replaceFuel (c : Char) (pat rep : Str)
    (hp : countChar pat c = 0) (hq : countChar rep c = 0) :
    ∀ (n : Nat) (s : Str), countChar (pyReplaceFuel pat rep n s) c = countChar s c
  | n, [] => by cases n <;> rfl
  | 0, x :: rest => rfl
  | n + 1, x :: rest => by
    simp only [pyReplaceFuel]
    by_cases hc : (listPrefixB pat (x :: rest) && !(pat == [])) = true
    · rw [if_pos hc]
      have hpre : listPrefixB pat (x :: rest) = true := by
        rw [Bool.and_eq_true] at hc
        exact hc.1
      obtain ⟨t, ht⟩ := (listPrefixB_iff pat (x :: rest)).mp hpre
      have hdrop : (x :: rest).drop pat.length = t := by
        rw [← ht, List.drop_left]
      rw [countChar_append, hdrop, countChar_replaceFuel c pat rep hp hq n t, hq,
        ← ht, countChar_append, hp]
    · rw [if_neg hc]
      simp only [countChar, countChar_replaceFuel c pat rep hp hq n rest]

theorem countChar_pyReplace (c : Char) (s pat rep : Str)
    (hp : countChar pat c = 0) (hq : countChar rep c = 0) :
    countChar (pyReplace s pat rep) c = countChar s c :=
  countChar_replaceFuel c pat rep hp hq s.length s

theorem pyReplaceFuel_length (pat rep : Str) (hlen : pat.length ≤ rep.length) :
    ∀ (n : Nat) (s : Str), s.length ≤ (pyReplaceFuel pat rep n s).length
  | n, [] => by cases n <;> simp [pyReplaceFuel]
  | 0, c :: rest => by simp [pyReplaceFuel]
  | n + 1, c :: rest => by
    simp only [pyReplaceFuel]
    by_cases hc : (listPrefixB pat (c :: rest) && !(pat == [])) = true
    · rw [if_pos hc]
      have hpre : listPrefixB pat (c :: rest) = true := by
        rw [Bool.and_eq_true] at hc
        exact hc.1
      obtain ⟨t, ht⟩ := (listPrefixB_iff pat (c :: rest)).mp hpre
      have hdrop : (c :: rest).drop pat.length = t := by
        rw [← ht, List.drop_left]
      have hrec := pyReplaceFuel_length pat rep hlen n ((c :: rest).drop pat.length)
      have hslen : (c :: rest).length = pat.length + t.length := by
        rw [← ht, List.length_append]
      have hdlen : ((c :: rest).drop pat.length).length = t.length := by rw [hdrop]
      simp only [List.length_append]
      omega
    · rw [if_neg hc]
      have hrec := pyReplaceFuel_length pat rep hlen n rest
      simp only [List.length_cons]
      omega

theorem pyReplaceFuel_length_lt (pat rep : Str) (hpat : pat ≠ [])
    (hlen : pat.length < rep.length) :
    ∀ (n : Nat) (s : Str), s.length ≤ n → containsSub s pat = true →
      s.length < (pyReplaceFuel pat rep n s).length
  | n, [] => by
    intro _ hcon
    rw [containsSub] at hcon
    simp [beq_iff_eq, hpat] at hcon
  | 0, c :: rest => by
    intro hle _
    simp only [List.length_cons] at hle
    omega
  | n + 1, c :: rest => by
    intro hle hcon
    simp only [pyReplaceFuel]
    rw [containsSub, Bool.or_eq_true] at hcon
    by_cases hpre : listPrefixB pat (c :: rest) = true
    · have hc : (listPrefixB pat (c :: rest) && !(pat == [])) = true := by
        simp [hpre, hpat]
      rw [if_pos hc]
      obtain ⟨t, ht⟩ := (listPrefixB_iff pat (c :: rest)).mp hpre
      have hdrop : (c :: rest).drop pat.length = t := by
        rw [← ht, List.drop_left]
      have hrec := pyReplaceFuel_length pat rep (Nat.le_of_lt hlen) n
        ((c :: rest).drop pat.length)
      have hslen : (c :: rest).length = pat.length + t.length := by
        rw [← ht, List.length_append]
      have hdlen : ((c :: rest).drop pat.length).length = t.length := by rw [hdrop]
      simp only [List.length_append]
      omega
    · have hb : listPrefixB pat (c :: rest) = false := by
        cases hx : listPrefixB pat (c :: rest) with
        | false => rfl
        | true => exact absurd hx hpre
      have hcr : containsSub rest pat = true := by
        rcases hcon with h | h
        · exact absurd h hpre
        · exact h
      have hc : ¬ (listPrefixB pat (c :: rest) && !(pat == [])) = true := by
        simp [hb]
      rw [if_neg hc]
      have hrec := pyReplaceFuel_length_lt pat rep hpat hlen n rest
        (by simp only [List.length_cons] at hle; omega) hcr
      simp only [List.length_cons]
      omega

theorem fix_abstract_url_changed (u : Str)
    (h : countChar u 'v' > 1 ∨
      (countChar u 'v' ≤ 1 ∧ containsSub u "http".toList = true)) :
    fix_abstract_url u ≠ u := by
  rcases h with hcount | ⟨hcount, hcon⟩
  · intro heq
    obtain ⟨i, hi⟩ := rfindAux_of_count 'v' u (by omega)
    have hslice : pySliceUpto u (pyRfind u 'v') = u.take i := by
      rw [show pyRfind u 'v' = (match rfindAux 'v' u with
        | some j => (j : Int)
        | none => -1) from rfl, hi]
      simp [pySliceUpto]
    have hfix : fix_abstract_url u =
        pyReplace (u.take i) "http".toList "https".toList := by
      rw [fix_abstract_url, if_pos hcount, hslice]
    have hcnt : countChar (fix_abstract_url u) 'v' = countChar (u.take i) 'v' := by
      rw [hfix]
      exact countChar_pyReplace 'v' (u.take i) "http".toList "https".toList
        (by decide) (by decide)
    have hR := rfindAux_count 'v' u i hi
    rw [heq] at hcnt
    omega
  · intro heq
    have hfix : fix_abstract_url u = pyReplace u "http".toList "https".toList := by
      rw [fix_abstract_url, if_neg (by omega : ¬ countChar u 'v' > 1)]
    have hlt : u.length < (pyReplace u "http".toList "https".toList).length :=
      pyReplaceFuel_length_lt "http".toList "https".toList (by decide) (by decide)
        u.length u (Nat.le_refl _) hcon
    rw [← hfix, heq] at hlt
    omega

/-- C6: `fix_abstract_url` maps `http://arxiv.org/abs/1312.7188v2` to exactly
`https://arxiv.org/abs/1312.7188`: the string has two `'v'`s, so it is
truncated at the last one, and then `http` is rewritten to `https`. -/
theorem fix_abstract_url_example :
    fix_abstract_url "http://arxiv.org/abs/1312.7188v2".toList
      = "https://arxiv.org/abs/1312.7188".toList := by
  decide

theorem pySplitFuel_ne_nil (sep : Str) : ∀ (n : Nat) (s : Str), pySplitFuel sep n s ≠ []
  | n, [] => by cases n <;> simp [pySplitFuel]
  | 0, c :: rest => by simp [pySplitFuel]
  | n + 1, c :: rest => by
    simp only [pySplitFuel]
    split
    · simp
    · split <;> simp

theorem pySplitFuel_head_prefix (sep : Str) :
    ∀ (n : Nat) (s p : Str) (ps : List Str),
      pySplitFuel sep n s = p :: ps → ∃ t, p ++ t = s := by
  intro n
  induction n with
  | zero =>
    intro s p ps h
    cases s with
    | nil =>
      simp only [pySplitFuel] at h
      injection h with h1 _
      exact ⟨[], by simp [← h1]⟩
    | cons c rest =>
      simp only [pySplitFuel] at h
      injection h with h1 _
      exact ⟨[], by simp [← h1]⟩
  | succ n ih =>
    intro s p ps h
    cases s with
    | nil =>
      simp only [pySplitFuel] at h
      injection h with h1 _
      exact ⟨[], by simp [← h1]⟩
    | cons c rest =>
      simp only [pySplitFuel] at h
      by_cases hc : (listPrefixB sep (c :: rest) && !(sep == [])) = true
      · rw [if_pos hc] at h
        injection h with h1 _
        exact ⟨c :: rest, by simp [← h1]⟩
      · rw [if_neg hc] at h
        cases hr : pySplitFuel sep n rest with
        | nil =>
          rw [hr] at h
          injection h with h1 _
          exact ⟨rest, by simp [← h1]⟩
        | cons p' ps' =>
          rw [hr] at h
          injection h with h1 _
          obtain ⟨t, ht⟩ := ih rest p' ps' hr
          exact ⟨t, by simp [← h1, ← ht]⟩

theorem pySplitFuel_no_sep (sep : Str) (hsep : sep ≠ []) :
    ∀ (n : Nat) (s : Str), s.length ≤ n →
      ∀ p ∈ pySplitFuel sep n s, containsSub p sep = false := by
  intro n
  induction n with
  | zero =>
    intro s hlen p hp
    have hs : s = [] := List.eq_nil_of_length_eq_zero (Nat.le_zero.mp hlen)
    subst hs
    simp only [pySplitFuel, List.mem_singleton] at hp
    subst hp
    simp only [containsSub]
    exact beq_eq_false_iff_ne.mpr hsep
  | succ n ih =>
    intro s hlen p hp
    cases s with
    | nil =>
      simp only [pySplitFuel, List.mem_singleton] at hp
      subst hp
      simp only [containsSub]
      exact beq_eq_false_iff_ne.mpr hsep
    | cons c rest =>
      have hnotempty : (!(sep == [])) = true := by
        simp [beq_eq_false_iff_ne.mpr hsep]
      simp only [pySplitFuel] at hp
      by_cases hc : (listPrefixB sep (c :: rest) && !(sep == [])) = true
      · rw [if_pos hc] at hp
        rcases List.mem_cons.mp hp with h1 | h2
        · subst h1
          simp only [containsSub]
          exact beq_eq_false_iff_ne.mpr hsep
        · have hsl : 1 ≤ sep.length := by
            cases sep with
            | nil => exact absurd rfl hsep
            | cons _ _ => simp
          apply ih ((c :: rest).drop sep.length) _ p h2
          rw [List.length_drop]
          simp only [List.length_cons] at hlen ⊢
          omega
      · rw [if_neg hc] at hp
        have hpre : listPrefixB sep (c :: rest) = false := by
          cases hb2 : listPrefixB sep (c :: rest) with
          | false => rfl
          | true => exact absurd (by simp [hb2, hnotempty, hsep]) hc
        cases hr : pySplitFuel sep n rest with
        | nil => exact absurd hr (pySplitFuel_ne_nil sep n rest)
        | cons p' ps' =>
          rw [hr] at hp
          have hlen' : rest.length ≤ n := by
            simp only [List.length_cons] at hlen
            omega
          rcases List.mem_cons.mp hp with h1 | h2
          · subst h1
            simp only [containsSub, Bool.or_eq_false_iff]
            constructor
            · cases hb : listPrefixB sep (c :: p') with
              | false => rfl
              | true =>
                exfalso
                obtain ⟨t1, ht1⟩ := (listPrefixB_iff sep (c :: p')).mp hb
                obtain ⟨t2, ht2⟩ := pySplitFuel_head_prefix sep n rest p' ps' hr
                have : listPrefixB sep (c :: rest) = true := by
                  apply (listPrefixB_iff sep (c :: rest)).mpr
                  refine ⟨t1 ++ t2, ?_⟩
                  calc sep ++ (t1 ++ t2) = (sep ++ t1) ++ t2 := by
                        rw [List.append_assoc]
                    _ = (c :: p') ++ t2 := by rw [ht1]
                    _ = c :: (p' ++ t2) := by rw [List.cons_append]
                    _ = c :: rest := by rw [ht2]
                rw [this] at hpre
                cases hpre
            · exact ih rest hlen' p' (by rw [hr]; exact List.mem_cons_self p' ps')
          · exact ih rest hlen' p (by rw [hr]; exact List.mem_cons_of_mem p' h2)

theorem pySplitOn_no_sep (s sep : Str) (hsep : sep ≠ []) :
    ∀ p ∈ pySplitOn s sep, containsSub p sep = false :=
  pySplitFuel_no_sep sep hsep s.length s (Nat.le_refl _)

theorem wsTokensAux_ne_nil : ∀ (s acc t : Str), t ∈ wsTokensAux s acc → t ≠ []
  | [], acc, t => by
    simp only [wsTokensAux]
    by_cases h : (acc == []) = true
    · rw [if_pos h]
      simp
    · rw [if_neg h]
      intro ht
      have h' : acc ≠ [] := fun hh => h (by simp [hh])
      simp only [List.mem_singleton] at ht
      subst ht
      simpa using h'
  | c :: rest, acc, t => by
    simp only [wsTokensAux]
    by_cases hw : (c.isWhitespace : Bool) = true
    · rw [if_pos hw]
      by_cases ha : (acc == []) = true
      · rw [if_pos ha]
        exact wsTokensAux_ne_nil rest [] t
      · rw [if_neg ha]
        intro ht
        rcases List.mem_cons.mp ht with h1 | h2
        · have h' : acc ≠ [] := fun hh => ha (by simp [hh])
          subst h1
          simpa using h'
        · exact wsTokensAux_ne_nil rest [] t h2
    · rw [if_neg hw]
      exact wsTokensAux_ne_nil rest (c :: acc) t

theorem wsTokens_ne_nil (s t : Str) (ht : t ∈ wsTokens s) : t ≠ [] :=
  wsTokensAux_ne_nil s [] t ht

theorem pyLastOpt_mem {α : Type} : ∀ (l : List α) (x : α), pyLastOpt l = some x → x ∈ l
  | [], x => by simp [pyLastOpt]
  | [a], x => by
    intro h
    simp only [pyLastOpt, Option.some.injEq] at h
    subst h
    exact List.mem_singleton_self a
  | a :: b :: xs, x => by
    intro h
    have hm := pyLastOpt_mem (b :: xs) x (by simpa [pyLastOpt] using h)
    exact List.mem_cons_of_mem a hm

theorem pyLastOpt_ne_nil {α : Type} : ∀ l : List α, l ≠ [] → ∃ x, pyLastOpt l = some x
  | [], h => absurd rfl h
  | [a], _ => ⟨a, rfl⟩
  | a :: b :: xs, _ => by
    obtain ⟨x, hx⟩ := pyLastOpt_ne_nil (b :: xs) (by simp)
    exact ⟨x, by simpa [pyLastOpt] using hx⟩

theorem optionMapList_eq_map {α β : Type} (f : α → Option β) (g : α → β) :
    ∀ l : List α, (∀ a ∈ l, f a = some (g a)) → optionMapList f l = some (l.map g)
  | [], _ => rfl
  | x :: xs, h => by
    have hx := h x (List.mem_cons_self x xs)
    have hxs := optionMapList_eq_map f g xs (fun a ha => h a (List.mem_cons_of_mem x ha))
    simp [optionMapList, hx, hxs]

/-- C1 (counterexample): the already-normalized link
`https://arxiv.org/abs/1312.7188` — exactly one `'v'`, scheme `https` — is not
returned unchanged by `fix_abstract_url`, because Python's `replace` rewrites
the `http` inside `https`, producing `httpss://…`; the equivalent idempotence
equation also fails at `http://arxiv.org/abs/1312.7188v2`. -/
theorem fix_abstract_url_not_idempotent :
    countChar normalizedLink 'v' = 1 ∧
    listPrefixB "https".toList normalizedLink = true ∧
    fix_abstract_url normalizedLink ≠ normalizedLink ∧
    fix_abstract_url (fix_abstract_url rawLink) ≠ fix_abstract_url rawLink := by
  decide

/-- C1 (amended): `fix_abstract_url` returns a link unchanged exactly when
the link has at most one `'v'` and no occurrence of the substring `http` at
all.  With more than one `'v'`, truncation removes a `'v'` and the
replacement (whose pattern and replacement are `'v'`-free) preserves the
`'v'` count, so the output differs from the input; with at most one `'v'`
and an occurrence of `http`, the replacement strictly lengthens the string.
In particular the function is not the identity — hence not idempotent — on
an already-normalized `https` link, as the counterexample shows. -/
theorem fix_abstract_url_identity (u : Str) :
    fix_abstract_url u = u ↔
      countChar u 'v' ≤ 1 ∧ containsSub u "http".toList = false := by
  constructor
  · intro heq
    by_cases hcount : countChar u 'v' ≤ 1
    · refine ⟨hcount, ?_⟩
      cases hcon : containsSub u "http".toList with
      | false => rfl
      | true => exact absurd heq (fix_abstract_url_changed u (Or.inr ⟨hcount, hcon⟩))
    · exact absurd heq (fix_abstract_url_changed u (Or.inl (by omega)))
  · rintro ⟨h1, h2⟩
    have hguard : ¬ countChar u 'v' > 1 := by omega
    simp only [fix_abstract_url, if_neg hguard]
    exact pyReplace_id u _ _ h2

/-- C1 witness: both directions of `fix_abstract_url_identity` at concrete
links — `arxiv.org/abs/1312.7188` is unchanged, and since
`https://arxiv.org/abs/1312.7188` contains `http`, it is changed. -/
theorem fix_abstract_url_identity_witness :
    countChar plainLink 'v' ≤ 1 ∧ containsSub plainLink "http".toList = false ∧
      fix_abstract_url plainLink = plainLink ∧
      ¬ (countChar normalizedLink 'v' ≤ 1 ∧
        containsSub normalizedLink "http".toList = false) ∧
      fix_abstract_url normalizedLink ≠ normalizedLink :=
  ⟨by decide, by decide,
    (fix_abstract_url_identity plainLink).mpr ⟨by decide, by decide⟩,
    by decide,
    fun h => (by decide : ¬ (countChar normalizedLink 'v' ≤ 1 ∧
      containsSub normalizedLink "http".toList = false))
      ((fix_abstract_url_identity normalizedLink).mp h)⟩

/-- C2 (counterexample): for the single author `John von Neumann`, `make_tag`
takes the last whitespace-delimited token `Neumann`, so the key is `Neu32`
and its first character is not `v` as the claim states. -/
theorem make_tag_von_neumann_counterexample :
    make_tag vonNeumannCd = some "Neu32".toList ∧
    ((make_tag vonNeumannCd).getD []).take 1 ≠ "v".toList := by
  decide

/-- C2 (amended): the surname heuristic drops a lowercase particle instead of
using it: `John von Neumann` yields the key `Neu32` (initial `N`, from the
last token `Neumann`), and in the multi-author list
`Gregory W. Moore and John von Neumann` the contribution is the initial `N`,
giving `MN90`. -/
theorem make_tag_von_neumann_drops_particle :
    make_tag vonNeumannCd = some "Neu32".toList ∧
    make_tag multiVonCd = some "MN90".toList ∧
    ((make_tag vonNeumannCd).getD []).take 1 = "N".toList := by
  decide

/-- C3 (counterexample): a well-formed response whose entry has zero `author`
children parses successfully into a record whose `author` field is the empty
string, refuting the all-fields-non-empty invariant. -/
theorem parse_response_zero_authors_counterexample :
    parse_response feedNoAuthors = Except.ok noAuthorsRecord ∧
    noAuthorsRecord.author = [] :=
  ⟨rfl, rfl⟩

/-- C3 (amended): `parse_response` fails without producing any record when
the `entry` element is absent, when the entry lacks a `title` or `published`
child, when the `published` element has no text, when the html-typed link
count differs from one, or when the selected link lacks an `href`; but
success does not guarantee non-empty fields: when the entry exists with all
of the above but zero `author` children, `parse_response` returns a record
whose `author` field is the empty string. -/
theorem parse_response_atomicity :
    (∀ (docRoot : XElem) (cd : CitationData),
      xfind docRoot "entry".toList = none →
      parse_response docRoot ≠ Except.ok cd) ∧
    (∀ (docRoot e : XElem) (cd : CitationData),
      xfind docRoot "entry".toList = some e →
      xfind e "title".toList = none →
      parse_response docRoot ≠ Except.ok cd) ∧
    (∀ (docRoot e : XElem) (cd : CitationData),
      xfind docRoot "entry".toList = some e →
      xfind e "published".toList = none →
      parse_response docRoot ≠ Except.ok cd) ∧
    (∀ (docRoot e pEl : XElem) (cd : CitationData),
      xfind docRoot "entry".toList = some e →
      xfind e "published".toList = some pEl →
      pEl.text = none →
      parse_response docRoot ≠ Except.ok cd) ∧
    (∀ (docRoot e : XElem) (cd : CitationData),
      xfind docRoot "entry".toList = some e →
      (htmlLinks e).length ≠ 1 →
      parse_response docRoot ≠ Except.ok cd) ∧
    (∀ (docRoot e l : XElem) (cd : CitationData),
      xfind docRoot "entry".toList = some e →
      htmlLinks e = [l] →
      xget l "href".toList = none →
      parse_response docRoot ≠ Except.ok cd) ∧
    (∀ (docRoot e tEl pEl l : XElem) (pt hrefv : Str),
      xfind docRoot "entry".toList = some e →
      xfindall e "author".toList = [] →
      xfind e "title".toList = some tEl →
      xfind e "published".toList = some pEl →
      pEl.text = some pt →
      htmlLinks e = [l] →
      xget l "href".toList = some hrefv →
      parse_response docRoot =
        Except.ok ⟨[], tEl.text, pt.take 4, fix_abstract_url hrefv⟩) := by
  refine ⟨?_, ?_, ?_, ?_, ?_, ?_, ?_⟩
  · intro docRoot cd h1
    simp only [parse_response]
    rw [h1]
    simp
  · intro docRoot e cd h1 h2
    simp at h2
    simp only [parse_response, h1]
    cases han : authorNames e with
    | error err => simp
    | ok ns => simp [h2]
  · intro docRoot e cd h1 h2
    simp at h2
    simp only [parse_response, h1]
    cases han : authorNames e with
    | error err => simp
    | ok ns =>
      cases htl : xfind e "title".toList with
      | none => simp
      | some tEl => simp [h2]
  · intro docRoot e pEl cd h1 h2 h3
    simp only [parse_response, h1]
    cases han : authorNames e with
    | error err => simp
    | ok ns =>
      cases htl : xfind e "title".toList with
      | none => simp
      | some tEl =>
        cases hpub : xfind e "published".toList with
        | none => simp
        | some pEl' =>
          rw [h2] at hpub
          injection hpub with hpe
          subst hpe
          simp [h3]
  · intro docRoot e cd h1 h2
    simp only [parse_response, h1]
    cases han : authorNames e with
    | error err => simp
    | ok ns =>
      cases htl : xfind e "title".toList with
      | none => simp
      | some tEl =>
        cases hpub : xfind e "published".toList with
        | none => simp
        | some pEl =>
          cases hpt : pEl.text with
          | none => simp [hpt]
          | some pt => simp [hpt, h2]
  · intro docRoot e l cd h1 h2 h3
    simp at h3
    simp only [parse_response, h1]
    cases han : authorNames e with
    | error err => simp
    | ok ns =>
      cases htl : xfind e "title".toList with
      | none => simp
      | some tEl =>
        cases hpub : xfind e "published".toList with
        | none => simp
        | some pEl =>
          cases hpt : pEl.text with
          | none => simp [hpt]
          | some pt => simp [hpt, h2, h3]
  · intro docRoot e tEl pEl l pt hrefv h1 h2 h3 h4 h5 h6 h7
    have hauthors : authorNames e = Except.ok [] := by
      simp only [authorNames]
      rw [h2]
      rfl
    simp at h1 h3 h4 h7
    simp [parse_response, h1, hauthors, h3, h4, h5, h6, h7, joinSep]

/-- C3 witness: `parse_response_atomicity` at concrete feeds — one for each
failure case (missing entry, missing title, missing published, text-less
published, two html links, html link without href) and the zero-author
success case with its empty author field. -/
theorem parse_response_atomicity_witness :
    parse_response feedNoEntry ≠ Except.ok wittenCd ∧
    parse_response feedNoTitle ≠ Except.ok wittenCd ∧
    parse_response feedNoPublished ≠ Except.ok wittenCd ∧
    parse_response feedPubNoText ≠ Except.ok wittenCd ∧
    parse_response feedTwoLinks ≠ Except.ok mooreWittenCd ∧
    parse_response feedOneBareLink ≠ Except.ok wittenCd ∧
    (xfindall entryNoAuthors "author".toList = [] ∧
      parse_response feedNoAuthors =
        Except.ok ⟨[], titleEl0.text, ("2019-10-13T00:00:00Z".toList).take 4,
          fix_abstract_url "http://arxiv.org/abs/1312.7188v2".toList⟩) :=
  ⟨parse_response_atomicity.1 feedNoEntry wittenCd rfl,
    parse_response_atomicity.2.1 feedNoTitle entryNoTitle wittenCd rfl rfl,
    parse_response_atomicity.2.2.1 feedNoPublished entryNoPublished wittenCd rfl rfl,
    parse_response_atomicity.2.2.2.1 feedPubNoText entryPubNoText pubElNoText
      wittenCd rfl rfl rfl,
    parse_response_atomicity.2.2.2.2.1 feedTwoLinks entryTwoLinks mooreWittenCd
      rfl (by decide),
    parse_response_atomicity.2.2.2.2.2.1 feedOneBareLink entryOneBareLink
      htmlLinkBare wittenCd rfl rfl rfl,
    rfl,
    parse_response_atomicity.2.2.2.2.2.2 feedNoAuthors entryNoAuthors titleEl0
      pubEl0 linkEl0 "2019-10-13T00:00:00Z".toList
      "http://arxiv.org/abs/1312.7188v2".toList rfl rfl rfl rfl rfl rfl rfl⟩

/-- C4 (counterexample): a response whose first entry has two html-typed
links but no `title` child fails with the missing-title failure
(`attributeError`) — not with the `ValueError` carrying the observed link
count 2 — so the claim's universal statement about the error kind is false. -/
theorem parse_response_bad_link_counterexample :
    (htmlLinks entryTwoLinksNoTitle).length = 2 ∧
    parse_response feedTwoLinksNoTitle = Except.error PyError.attributeError ∧
    parse_response feedTwoLinksNoTitle ≠ Except.error (PyError.valueError 2) := by
  refine ⟨rfl, rfl, ?_⟩
  rw [show parse_response feedTwoLinksNoTitle = Except.error PyError.attributeError
    from rfl]
  simp

/-- C4 (amended): when the first entry's html-typed link count differs from
one, `parse_response` never returns a record; and if the author, title and
published extractions succeed, the failure is exactly the `ValueError`
carrying the observed count.  (If an earlier extraction fails — e.g. a
missing `title` — that earlier failure is raised instead, without a count.) -/
theorem parse_response_bad_link_count (docRoot entry : XElem)
    (h1 : xfind docRoot "entry".toList = some entry)
    (h2 : (htmlLinks entry).length ≠ 1) :
    (∀ cd : CitationData, parse_response docRoot ≠ Except.ok cd) ∧
    (∀ (ns : List Str) (tEl pEl : XElem) (pt : Str),
      authorNames entry = Except.ok ns →
      xfind entry "title".toList = some tEl →
      xfind entry "published".toList = some pEl →
      pEl.text = some pt →
      parse_response docRoot =
        Except.error (PyError.valueError (htmlLinks entry).length)) := by
  have hbne : ((htmlLinks entry).length != 1) = true := by
    simpa using h2
  constructor
  · intro cd
    simp only [parse_response, h1]
    cases han : authorNames entry with
    | error e => simp
    | ok ns =>
      cases ht : xfind entry "title".toList with
      | none => simp
      | some tEl =>
        cases hp : xfind entry "published".toList with
        | none => simp
        | some pEl =>
          cases hpt : pEl.text with
          | none => simp [hpt]
          | some pt => simp [hpt, h2]
  · intro ns tEl pEl pt han ht hp hpt
    simp only [parse_response, h1, han, ht, hp, hpt]
    rw [if_pos hbne]

/-- C4 witness: `parse_response_bad_link_count` at the concrete two-link feed
(author, title and published all present). -/
theorem parse_response_bad_link_count_witness :
    (htmlLinks entryTwoLinks).length = 2 ∧
    parse_response feedTwoLinks ≠ Except.ok wittenCd ∧
    parse_response feedTwoLinks =
      Except.error (PyError.valueError (htmlLinks entryTwoLinks).length) :=
  ⟨rfl,
    (parse_response_bad_link_count feedTwoLinks entryTwoLinks rfl (by decide)).1 wittenCd,
    (parse_response_bad_link_count feedTwoLinks entryTwoLinks rfl (by decide)).2
      ["Edward Witten".toList] titleEl0 pubEl0 "2019-10-13T00:00:00Z".toList
      rfl rfl rfl rfl⟩

/-- C5: if the parsed response has no `entry` child, `parse_response` fails —
with the `None`-dereference crash the script produces there (modelled
`attributeError`; the specification's name for this failure is
`MissingEntryError`) — and never returns a record. -/
theorem parse_response_missing_entry (docRoot : XElem)
    (h : xfind docRoot "entry".toList = none) :
    parse_response docRoot = Except.error PyError.attributeError := by
  simp only [parse_response]
  rw [h]

/-- C5 witness: `parse_response_missing_entry` at the concrete entry-less feed. -/
theorem parse_response_missing_entry_witness :
    xfind feedNoEntry "entry".toList = none ∧
    parse_response feedNoEntry = Except.error PyError.attributeError :=
  ⟨rfl, parse_response_missing_entry feedNoEntry rfl⟩

/-- C7: for a record whose author field contains no `' and '` (exactly one
author) and whose name has a last whitespace-delimited token, `make_tag`
returns the first three characters of that token (fewer if shorter, no
padding) followed by the last two characters of the year. -/
theorem make_tag_single_author (cd : CitationData) (t : Str)
    (h1 : containsSub cd.author andSep = false)
    (h2 : pyLastOpt (wsTokens cd.author) = some t) :
    make_tag cd = some (t.take 3 ++ pyTakeLast cd.year 2) := by
  simp [make_tag, h1, h2]

/-- C7 witness: `make_tag_single_author` at Edward Witten, 2016, key `Wit16`. -/
theorem make_tag_single_author_witness :
    containsSub wittenCd.author andSep = false ∧
    pyLastOpt (wsTokens wittenCd.author) = some "Witten".toList ∧
    make_tag wittenCd = some "Wit16".toList :=
  ⟨by decide, by decide,
    (make_tag_single_author wittenCd "Witten".toList (by decide) (by decide)).trans
      (by decide)⟩

/-- C8: for a record whose author field contains `' and '` (several authors),
each of whose names has a last whitespace-delimited token, `make_tag` returns
the concatenation, in author order, of the first character of each author's
last token, followed by the last two characters of the year. -/
theorem make_tag_multiple_authors (cd : CitationData)
    (h1 : containsSub cd.author andSep = true)
    (h2 : ∀ a ∈ pySplitOn cd.author andSep, wsTokens a ≠ []) :
    make_tag cd =
      some (((pySplitOn cd.author andSep).map
          (fun a => ((pyLastOpt (wsTokens a)).getD []).take 1)).flatten ++
        pyTakeLast cd.year 2) := by
  have hmap : optionMapList
      (fun author => (pyLastOpt (wsTokens author)).bind
        (fun t => t.head?.map (fun c0 => [c0])))
      (pySplitOn cd.author andSep)
      = some ((pySplitOn cd.author andSep).map
          (fun a => ((pyLastOpt (wsTokens a)).getD []).take 1)) := by
    apply optionMapList_eq_map
    intro a ha
    obtain ⟨s, hs⟩ := pyLastOpt_ne_nil (wsTokens a) (h2 a ha)
    have hmem := pyLastOpt_mem (wsTokens a) s hs
    have hne := wsTokens_ne_nil a s hmem
    cases s with
    | nil => exact absurd rfl hne
    | cons c0 s' => simp [hs]
  simp [make_tag, h1, hmap]

/-- C8 witness: `make_tag_multiple_authors` at Gregory W. Moore and Edward
Witten, 1990, key `MW90`. -/
theorem make_tag_multiple_authors_witness :
    containsSub mooreWittenCd.author andSep = true ∧
    (∀ a ∈ pySplitOn mooreWittenCd.author andSep, wsTokens a ≠ []) ∧
    make_tag mooreWittenCd = some "MW90".toList :=
  ⟨by decide, by decide,
    (make_tag_multiple_authors mooreWittenCd (by decide) (by decide)).trans
      (by decide)⟩

/-- C9: for any record whose key generation succeeds, the default style
renders, in order, the `make_tag` key, author, title, year, and a note
wrapping the link in `\url` markup; the SPIRES style renders the key, author,
year, title, and an eprint field holding the raw identifier plus the literal
`archivePrefix = "arXiv"` marker; the SPIRES output contains the identifier,
and (checked byte-for-byte on the sample record) does not contain the link. -/
theorem format_citation_data_field_order (cd : CitationData) (identifier tag : Str)
    (h : make_tag cd = some tag) :
    format_citation_data cd identifier false =
      some ("@article\x7b".toList ++ tag ++ ",\n\tauthor = \x7b".toList ++ cd.author ++
        "\x7d,\n\ttitle = \x7b".toList ++ pyStrOf cd.title ++
        "\x7d,\n\tyear = \x7b".toList ++ cd.year ++ "\x7d,\n\tnote = \x7b\\url\x7b".toList ++
        cd.link ++ "\x7d\x7d\n\x7d".toList) ∧
    format_citation_data cd identifier true =
      some ("@article\x7b".toList ++ tag ++ ",\n\tauthor = \x7b".toList ++ cd.author ++
        "\x7d,\n\tyear = \x7b".toList ++ cd.year ++ "\x7d,\n\ttitle = \x7b".toList ++
        pyStrOf cd.title ++ "\x7d,\n\teprint = \x7b".toList ++ identifier ++
        "\x7d,\n\tarchivePrefix = \"arXiv\"\n\x7d".toList) ∧
    containsSub ((format_citation_data cd identifier true).getD []) identifier = true ∧
    containsSub ((format_citation_data mooreWittenCd sampleIdentifier true).getD [])
      mooreWittenCd.link = false := by
  have hdef : format_citation_data cd identifier false =
      some ("@article\x7b".toList ++ tag ++ ",\n\tauthor = \x7b".toList ++ cd.author ++
        "\x7d,\n\ttitle = \x7b".toList ++ pyStrOf cd.title ++
        "\x7d,\n\tyear = \x7b".toList ++ cd.year ++ "\x7d,\n\tnote = \x7b\\url\x7b".toList ++
        cd.link ++ "\x7d\x7d\n\x7d".toList) := by
    simp [format_citation_data, h]
  have hspi : format_citation_data cd identifier true =
      some ("@article\x7b".toList ++ tag ++ ",\n\tauthor = \x7b".toList ++ cd.author ++
        "\x7d,\n\tyear = \x7b".toList ++ cd.year ++ "\x7d,\n\ttitle = \x7b".toList ++
        pyStrOf cd.title ++ "\x7d,\n\teprint = \x7b".toList ++ identifier ++
        "\x7d,\n\tarchivePrefix = \"arXiv\"\n\x7d".toList) := by
    simp [format_citation_data, h]
  refine ⟨hdef, hspi, ?_, by decide⟩
  rw [hspi]
  simp only [Option.getD_some]
  have hmid := containsSub_middle
    ("@article\x7b".toList ++ tag ++ ",\n\tauthor = \x7b".toList ++ cd.author ++
      "\x7d,\n\tyear = \x7b".toList ++ cd.year ++ "\x7d,\n\ttitle = \x7b".toList ++
      pyStrOf cd.title ++ "\x7d,\n\teprint = \x7b".toList)
    identifier
    ("\x7d,\n\tarchivePrefix = \"arXiv\"\n\x7d".toList)
  simpa [List.append_assoc] using hmid

/-- C9 witness: `format_citation_data_field_order` at the sample Moore–Witten
record and identifier `1312.7188`, with the two rendered blocks checked
byte-for-byte. -/
theorem format_citation_data_field_order_witness :
    make_tag mooreWittenCd = some "MW90".toList ∧
    format_citation_data mooreWittenCd sampleIdentifier false =
      some ("@article\x7bMW90,\n\tauthor = \x7bGregory W. Moore and Edward Witten\x7d,\n\ttitle = \x7bSample Title\x7d,\n\tyear = \x7b1990\x7d,\n\tnote = \x7b\\url\x7bhttps://arxiv.org/abs/sample\x7d\x7d\n\x7d".toList) ∧
    format_citation_data mooreWittenCd sampleIdentifier true =
      some ("@article\x7bMW90,\n\tauthor = \x7bGregory W. Moore and Edward Witten\x7d,\n\tyear = \x7b1990\x7d,\n\ttitle = \x7bSample Title\x7d,\n\teprint = \x7b1312.7188\x7d,\n\tarchivePrefix = \"arXiv\"\n\x7d".toList) :=
  ⟨by decide,
    (format_citation_data_field_order mooreWittenCd sampleIdentifier "MW90".toList
      (by decide)).1.trans (by decide),
    ((format_citation_data_field_order mooreWittenCd sampleIdentifier "MW90".toList
      (by decide)).2.1).trans (by decide)⟩

/-- C10: if some author name in the list contains the separator `' and '`,
then splitting the `' and '`-joined author string does not recover the list
(every piece produced by the split is `' and '`-free), so the join-then-split
round trip is the identity only for lists in which no name contains the
separator; and `make_tag` classifies the single author `John Smith and Sons`
as multiple authors, producing the initials-branch key `SS16`. -/
theorem join_split_roundtrip (names : List Str)
    (h : ∃ nm ∈ names, containsSub nm andSep = true) :
    pySplitOn (joinSep andSep names) andSep ≠ names ∧
    make_tag smithCd = some "SS16".toList := by
  constructor
  · intro heq
    obtain ⟨nm, hmem, hc⟩ := h
    have hmem' : nm ∈ pySplitOn (joinSep andSep names) andSep := by
      rw [heq]
      exact hmem
    have hfalse := pySplitOn_no_sep (joinSep andSep names) andSep (by decide) nm hmem'
    rw [hc] at hfalse
    exact Bool.noConfusion hfalse
  · decide

/-- C10 witness: `join_split_roundtrip` at the one-element list
`[John Smith and Sons]`. -/
theorem join_split_roundtrip_witness :
    (∃ nm ∈ c10names, containsSub nm andSep = true) ∧
    pySplitOn (joinSep andSep c10names) andSep ≠ c10names :=
  ⟨by decide, (join_split_roundtrip c10names (by decide)).1⟩
